import Mathlib

/-!
# File explorer (`src/file_explorer.cpp`): a shallow embedding

`std::string` is modelled as a list of characters, `fs::perms` as the natural
number holding its bits, `int` as an integer (wrapped to 32 bits where a
conversion can overflow), and calls into the filesystem library as explicit
parameters or as recorded actions.
-/

namespace FileExplorer

/-- Model of `std::string`. -/
abbrev Str := List Char

deriving instance DecidableEq for Except

/-! ## Permission codec (`perms_to_string`, `change_permissions`) -/

/-- Value of `fs::perms::owner_read`. -/
def owner_read : Nat := 0o400
/-- Value of `fs::perms::owner_write`. -/
def owner_write : Nat := 0o200
/-- Value of `fs::perms::owner_exec`. -/
def owner_exec : Nat := 0o100
/-- Value of `fs::perms::group_read`. -/
def group_read : Nat := 0o40
/-- Value of `fs::perms::group_write`. -/
def group_write : Nat := 0o20
/-- Value of `fs::perms::group_exec`. -/
def group_exec : Nat := 0o10
/-- Value of `fs::perms::others_read`. -/
def others_read : Nat := 0o4
/-- Value of `fs::perms::others_write`. -/
def others_write : Nat := 0o2
/-- Value of `fs::perms::others_exec`. -/
def others_exec : Nat := 0o1

/-- The test `(p & flag) != fs::perms::none ? yes : '-'` of `perms_to_string`. -/
def perm_char (p flag : Nat) (yes : Char) : Char :=
  if p &&& flag ≠ 0 then yes else '-'

/-- Source lines 25-38: start from nine dashes and assign the nine positions. -/
def perms_to_string (p : Nat) : Str :=
  let s : Str := "---------".toList
  let s := s.set 0 (perm_char p owner_read 'r')
  let s := s.set 1 (perm_char p owner_write 'w')
  let s := s.set 2 (perm_char p owner_exec 'x')
  let s := s.set 3 (perm_char p group_read 'r')
  let s := s.set 4 (perm_char p group_write 'w')
  let s := s.set 5 (perm_char p group_exec 'x')
  let s := s.set 6 (perm_char p others_read 'r')
  let s := s.set 7 (perm_char p others_write 'w')
  let s := s.set 8 (perm_char p others_exec 'x')
  s

/-- The classification `std::isspace` in the "C" locale: space and the control
characters tab, line feed, vertical tab, form feed, carriage return. -/
def isspace (c : Char) : Bool :=
  c.toNat = 32 || (9 ≤ c.toNat && c.toNat ≤ 13)

/-- A digit of base 8, as `strtol` accepts it. -/
def is_octal_digit (c : Char) : Bool :=
  48 ≤ c.toNat && c.toNat ≤ 55

/-- Value of a run of digits in the given base, most significant first. -/
def digits_value (base : Nat) (ds : Str) : Nat :=
  ds.foldl (fun acc c => acc * base + (c.toNat - 48)) 0

/-- Lower bound of `int`. -/
def INT_MIN : Int := -2147483648
/-- Upper bound of `int`. -/
def INT_MAX : Int := 2147483647

/-- Splits an optional sign off the front, as `strtol` and `num_get` do. -/
def take_sign : Str → Bool × Str
  | '-' :: r => (true, r)
  | '+' :: r => (false, r)
  | s => (false, s)

/-- The call `std::stoi(mode, nullptr, 8)`: skip leading white space, take an
optional sign, convert the longest run of octal digits and ignore what follows
it. `none` stands for the exception thrown when there is no digit to convert
(`std::invalid_argument`) or the value does not fit an `int`
(`std::out_of_range`). -/
def stoi_octal (s : Str) : Option Int :=
  let (neg, rest) := take_sign (s.dropWhile isspace)
  let ds := rest.takeWhile is_octal_digit
  if ds.isEmpty then none
  else
    let v : Int := if neg then -(digits_value 8 ds : Int) else (digits_value 8 ds : Int)
    if v < INT_MIN ∨ INT_MAX < v then none else some v

/-- The test `m & mask` on a 32-bit `int` and a non-negative mask: the bits of
the two's complement representation of `m`. -/
def int_and (m : Int) (mask : Nat) : Nat :=
  (m % 4294967296).toNat &&& mask

/-- One statement `if (m & mask) p |= flag;` of `change_permissions`. -/
def or_if (m : Int) (mask flag p : Nat) : Nat :=
  if int_and m mask ≠ 0 then p ||| flag else p

/-- Source lines 223-235: the permission set built from the parsed mode. -/
def perms_of_mode (m : Int) : Nat :=
  let p := 0
  let p := or_if m 0o400 owner_read p
  let p := or_if m 0o200 owner_write p
  let p := or_if m 0o100 owner_exec p
  let p := or_if m 0o40 group_read p
  let p := or_if m 0o20 group_write p
  let p := or_if m 0o10 group_exec p
  let p := or_if m 0o4 others_read p
  let p := or_if m 0o2 others_write p
  let p := or_if m 0o1 others_exec p
  p

/-- What one call of `change_permissions` did. -/
structure ChmodOutcome where
  /-- The value returned. -/
  ret : Bool
  /-- The text written to `std::cerr`. -/
  cerr : Str
  /-- The permission set passed to `fs::permissions`, if the call was reached. -/
  applied : Option Nat
deriving DecidableEq, Repr

/-- Source lines 210-235, the mode decoding of `change_permissions`: the length
check, the octal parse and the construction of the permission set. The error
value is the message written to `std::cerr`. -/
def decode_mode (mode : Str) : Except Str Nat :=
  if mode.length ≠ 3 then .error "chmod: mode should be 3 digits like 755\n".toList
  else
    match stoi_octal mode with
    | none => .error "chmod: invalid mode\n".toList
    | some m => .ok (perms_of_mode m)

/-- Source lines 210-244. `fs_permissions path p` is the library call
`fs::permissions(path, p, ec)`: `none` when it succeeds, the message of the
error code when it fails. -/
def change_permissions (fs_permissions : Str → Nat → Option Str) (path mode : Str) :
    ChmodOutcome :=
  match decode_mode mode with
  | .error msg => ⟨false, msg, none⟩
  | .ok p =>
    match fs_permissions path p with
    | some msg => ⟨false, "chmod: ".toList ++ msg ++ "\n".toList, some p⟩
    | none => ⟨true, [], some p⟩

/-- The spec's reading of one octal digit: the letter of capability `j`
(0 read, 1 write, 2 execute) when bit `4 >> j` of the digit is set, a dash
otherwise. -/
def expected_char (digit : Char) (j : Nat) : Char :=
  if (digit.toNat - 48) &&& (4 >>> j) ≠ 0 then ['r', 'w', 'x'].getD j '-' else '-'

/-- The eight octal digits. -/
def octal_digits : Str := "01234567".toList

/-! ## File preview (`show_file_head`, `show_file_tail`) -/

/-- What one call of `show_file_head` or `show_file_tail` did. -/
structure PreviewOutcome where
  /-- The value returned. -/
  ret : Bool
  /-- The text written to `std::cout`. -/
  cout : Str
  /-- The text written to `std::cerr`. -/
  cerr : Str
deriving DecidableEq, Repr

/-- The text `std::cout << l << '\n'` writes for each line of `ls` in turn. -/
def emit_lines (ls : List Str) : Str :=
  ls.foldr (fun l acc => l ++ '\n' :: acc) []

/-- Source lines 165-167, the loop of `show_file_head`. `file` holds the lines
that successive `std::getline(ifs, line)` calls still deliver; the condition
tests `count < lines` before it reads. Returns the lines written, in order.
`count` stays below `lines`, so `++count` cannot overflow. -/
def head_loop (lines : Int) : List Str → Int → List Str
  | [], _ => []
  | line :: file, count =>
    if count < lines then line :: head_loop lines file (count + 1) else []

/-- Source lines 157-169. `file` is `none` when the stream cannot be opened,
otherwise the line sequence of the file. -/
def show_file_head (file : Option (List Str)) (path : Str) (lines : Int) : PreviewOutcome :=
  match file with
  | none => ⟨false, [], "cathead: cannot open ".toList ++ path ++ "\n".toList⟩
  | some ls => ⟨true, emit_lines (head_loop lines ls 0), []⟩

/-- The conversion `(int)buffer.size()` of a `size_t` to a 32-bit `int`:
reduction modulo `2^32` into the range of `int`. -/
def size_to_int (n : Nat) : Int :=
  if n % 4294967296 < 2147483648 then (n % 4294967296 : Nat) else (n % 4294967296 : Nat) - 4294967296

/-- One iteration of the loop of `show_file_tail` (source lines 180-181):
`push_back`, then `pop_front` when the converted size exceeds `lines`. -/
def tail_step (lines : Int) (buffer : List Str) (line : Str) : List Str :=
  let buffer := buffer ++ [line]
  if size_to_int buffer.length > lines then buffer.tail else buffer

/-- Source lines 179-182, the loop of `show_file_tail`: the buffer after every
line of `file` has been read, starting from `buffer`. -/
def tail_loop (lines : Int) : List Str → List Str → List Str
  | [], buffer => buffer
  | line :: file, buffer => tail_loop lines file (tail_step lines buffer line)

/-- Source lines 171-185. -/
def show_file_tail (file : Option (List Str)) (path : Str) (lines : Int) : PreviewOutcome :=
  match file with
  | none => ⟨false, [], "cattail: cannot open ".toList ++ path ++ "\n".toList⟩
  | some ls => ⟨true, emit_lines (tail_loop lines ls []), []⟩

/-- The last `n` elements of a list. -/
def last_n (n : Nat) (l : List Str) : List Str := l.drop (l.length - n)

/-! ## Recursive search (`search_recursive`) -/

/-- A filesystem tree below a search root: a file, or a directory that can or
cannot be read, with its children in iteration order. -/
inductive Node where
  | file (name : Str)
  | dir (name : Str) (readable : Bool) (children : List Node)

/-- What one advance of `fs::recursive_directory_iterator` delivers: the next
entry, or an error code. -/
inductive Advance where
  | entry (path : Str) (filename : Str)
  | error (message : Str)
deriving DecidableEq, Repr

/-- The path of a child: the parent path, a separator, the child's name. -/
def child_path (parent name : Str) : Str := parent ++ '/' :: name

mutual
/-- The pre-order sequence of advances over a tree with the iterator's default
options: each entry is delivered, then a readable directory is descended into,
and descending into an unreadable one delivers an error. The advances listed
after an error are the ones a traversal that skipped the failing directory
would go on to deliver. -/
def advances (parent : Str) : Node → List Advance
  | .file name => [.entry (child_path parent name) name]
  | .dir name readable children =>
    .entry (child_path parent name) name ::
      (if readable then advances_list (child_path parent name) children
       else [.error "Permission denied".toList])
/-- The advances over a list of siblings, in order. -/
def advances_list (parent : Str) : List Node → List Advance
  | [] => []
  | c :: cs => advances parent c ++ advances_list parent cs
end

/-- What one call of `search_recursive` did. -/
structure SearchOutcome where
  /-- The vector returned. -/
  results : List Str
  /-- The text written to `std::cerr`. -/
  cerr : Str
deriving DecidableEq, Repr

/-- Source lines 197-204, the `for` loop of `search_recursive` over the
advances the iterator delivers. The condition `!ec && it != end` leaves the
loop at the first error; `re filename` is `std::regex_search` on the filename,
`none` when it throws (caught and ignored). Returns the results and the error
code the loop ended with. -/
def search_loop (re : Str → Option Bool) : List Advance → List Str → List Str × Option Str
  | [], results => (results, none)
  | .error message :: _, results => (results, some message)
  | .entry path filename :: rest, results =>
    search_loop re rest (if re filename = some true then results ++ [path] else results)

/-- Source lines 187-207. `compile pattern` is the construction of the
`std::regex` (the error is the text of the exception); `open_root root` is what
the iterator constructed on `root` delivers, advance by advance. -/
def search_recursive (compile : Str → Except Str (Str → Option Bool))
    (open_root : Str → List Advance) (root pattern : Str) : SearchOutcome :=
  match compile pattern with
  | .error what => ⟨[], "search: invalid regex: ".toList ++ what ++ "\n".toList⟩
  | .ok re =>
    match search_loop re (open_root root) [] with
    | (results, some message) => ⟨results, "search: ".toList ++ message ++ "\n".toList⟩
    | (results, none) => ⟨results, []⟩

/-- The iterator on a root that is a readable directory with the given
children. -/
def open_tree (children : List Node) (root : Str) : List Advance :=
  advances_list root children

/-- The entries before the first error. -/
def visited : List Advance → List (Str × Str)
  | [] => []
  | .error _ :: _ => []
  | .entry path filename :: rest => (path, filename) :: visited rest

/-- The first error among the advances, if any. -/
def first_error : List Advance → Option Str
  | [] => none
  | .error message :: _ => some message
  | .entry _ _ :: rest => first_error rest

/-- Every entry among the advances, those after an error included. -/
def all_entries : List Advance → List (Str × Str)
  | [] => []
  | .error _ :: rest => all_entries rest
  | .entry path filename :: rest => (path, filename) :: all_entries rest

/-- A matcher for the pattern `^a\.txt$`: the filename is `a.txt`, in either
case. -/
def re_a_txt (filename : Str) : Option Bool :=
  some (filename.map Char.toLower == "a.txt".toList)

/-- A root with an unreadable directory `locked` followed by a readable
sibling `ok` that holds `a.txt`. -/
def tree_locked_first : List Node :=
  [.dir "locked".toList false [], .dir "ok".toList true [.file "a.txt".toList]]

/-! ## Directory listing (`list_directory`) -/

/-- The descriptor `FileInfo` of one child. -/
structure FileInfo where
  name : Str
  path : Str
  is_dir : Bool
  size : Nat
  perms : Str
deriving DecidableEq, Repr

/-- The enumeration `fs::file_type`. -/
inductive file_type where
  | none | not_found | regular | directory | symlink | block | character | fifo | socket
  | unknown
deriving DecidableEq, Repr

/-- The value `fs::file_status`: a type and permission bits. -/
structure file_status where
  type : file_type
  permissions : Nat
deriving DecidableEq, Repr

/-- One `fs::directory_entry` as the loop of `list_directory` uses it: the two
strings taken from its path, what `entry.symlink_status(ec2)` gives and what
`fs::file_size(entry.path(), ec2)` gives (the error is the error code). -/
structure directory_entry where
  filename : Str
  path : Str
  symlink_status : Except Str file_status
  file_size : Except Str Nat

/-- The library predicate `fs::is_directory(st)`. -/
def is_directory (st : file_status) : Bool := st.type == file_type.directory

/-- The library predicate `fs::is_regular_file(st)`. -/
def is_regular_file (st : file_status) : Bool := st.type == file_type.regular

/-- Source lines 49-72, the body of the loop of `list_directory` for one
entry. Nothing in the `try` block throws, so its handler is never entered. -/
def file_info (entry : directory_entry) : FileInfo :=
  match entry.symlink_status with
  | .ok st =>
    let size :=
      if is_regular_file st then
        match entry.file_size with
        | .ok n => n
        | .error _ => 0
      else 0
    ⟨entry.filename, entry.path, is_directory st, size, perms_to_string st.permissions⟩
  | .error _ => ⟨entry.filename, entry.path, false, 0, "?????????".toList⟩

/-- What one call of `list_directory` did. -/
structure ListOutcome where
  /-- The vector returned. -/
  out : List FileInfo
  /-- The text written to `std::cerr`. -/
  cerr : Str

/-- Source lines 40-76. `open_dir path` is the construction of the
`fs::directory_iterator`: the children in iteration order, or the message of
the error code. Each iteration ends in `out.push_back(fi)`. -/
def list_directory (open_dir : Str → Except Str (List directory_entry)) (path : Str) :
    ListOutcome :=
  match open_dir path with
  | .error message =>
    ⟨[], "ls: cannot access '".toList ++ path ++ "': ".toList ++ message ++ "\n".toList⟩
  | .ok entries => ⟨entries.foldl (fun out entry => out ++ [file_info entry]) [], []⟩

/-- A directory holding the regular file `a.txt` of 10 bytes and the directory
`sub`. -/
def example_dir : List directory_entry :=
  [⟨"a.txt".toList, "d/a.txt".toList, .ok ⟨file_type.regular, 0o644⟩, .ok 10⟩,
    ⟨"sub".toList, "d/sub".toList, .ok ⟨file_type.directory, 0o755⟩, .error "Is a directory".toList⟩]

/-! ## Command dispatcher (`main`) -/

/-- A `std::istringstream`: the characters not yet read and the state flags
`eofbit` and `failbit`. -/
structure IStream where
  /-- The characters not yet extracted. -/
  buf : Str
  /-- The flag `eofbit`. -/
  eofbit : Bool
  /-- The flag `failbit`. -/
  failbit : Bool
deriving DecidableEq, Repr

/-- The member `good()`: no flag is set. -/
def IStream.good (s : IStream) : Bool := !s.eofbit && !s.failbit

/-- The conversion of a stream to `bool`: `!fail()`. -/
def IStream.ok (s : IStream) : Bool := !s.failbit

/-- The construction of `std::istream::sentry`. A stream that is not good gets
`failbit`. Otherwise, unless `noskipws`, leading white space is skipped, and
running out of characters while skipping sets `eofbit` and `failbit`. The
boolean tells whether the input operation may go on. -/
def sentry (noskipws : Bool) (s : IStream) : IStream × Bool :=
  if s.good then
    if noskipws then (s, true)
    else
      let rest := s.buf.dropWhile isspace
      if rest.isEmpty then (⟨rest, true, true⟩, false) else (⟨rest, false, false⟩, true)
  else (⟨s.buf, s.eofbit, true⟩, false)

/-- The extraction `iss >> str` into a `std::string`: after the sentry, the
characters up to the next white space or the end, where reaching the end sets
`eofbit`. When the sentry fails the string keeps its value. -/
def extract_string (s : IStream) (str : Str) : IStream × Str :=
  match sentry false s with
  | (s, true) =>
    let word := s.buf.takeWhile (fun c => !isspace c)
    let rest := s.buf.dropWhile (fun c => !isspace c)
    (⟨rest, rest.isEmpty, word.isEmpty⟩, word)
  | (s, false) => (s, str)

/-- The manipulator `iss >> std::ws`: after a sentry that skips nothing, white
space is discarded, and reaching the end sets `eofbit` but not `failbit`. -/
def ws (s : IStream) : IStream :=
  match sentry true s with
  | (s, true) =>
    let rest := s.buf.dropWhile isspace
    ⟨rest, rest.isEmpty, s.failbit⟩
  | (s, false) => s

/-- The call `std::getline(iss, str)`: after a sentry that skips nothing, the
characters up to the next line feed, which is extracted and dropped, or up to
the end, which sets `eofbit`; `failbit` is set when nothing at all was
extracted. -/
def getline (s : IStream) (str : Str) : IStream × Str :=
  match sentry true s with
  | (s, true) =>
    let line := s.buf.takeWhile (fun c => c != '\n')
    match s.buf.dropWhile (fun c => c != '\n') with
    | [] => (⟨[], true, line.isEmpty⟩, line)
    | _ :: rest => (⟨rest, false, false⟩, line)
  | (s, false) => (s, str)

/-- A decimal digit. -/
def is_digit (c : Char) : Bool := 48 ≤ c.toNat && c.toNat ≤ 57

/-- The extraction `iss >> n` into an `int`: after the sentry, an optional
sign and the longest run of decimal digits. No digit, or a value outside the
range of `int`, sets `failbit` (the value stored is then 0 or the nearest
bound). When the sentry fails `n` keeps its value. -/
def extract_int (s : IStream) (n : Int) : IStream × Int :=
  match sentry false s with
  | (s, true) =>
    let (neg, r) := take_sign s.buf
    let ds := r.takeWhile is_digit
    let rest := r.dropWhile is_digit
    if ds.isEmpty then (⟨rest, rest.isEmpty, true⟩, 0)
    else
      let v : Int := if neg then -(digits_value 10 ds : Int) else (digits_value 10 ds : Int)
      if v < INT_MIN then (⟨rest, rest.isEmpty, true⟩, INT_MIN)
      else if INT_MAX < v then (⟨rest, rest.isEmpty, true⟩, INT_MAX)
      else (⟨rest, rest.isEmpty, false⟩, v)
  | (s, false) => (s, n)

/-- What `main` does that can be observed: a call of one of the operations
with its arguments, or text written to `std::cerr`. The prompt and the banner
written to `std::cout` are the same on every line and are not recorded. -/
inductive Action where
  /-- The call `show_menu()`. -/
  | show_menu
  /-- The statement `std::cout << get_current_path() << '\n'`. -/
  | print_current_path
  /-- The call `print_listing(list_directory(p))`. -/
  | list_directory (p : Str)
  /-- The call `print_listing(list_directory(get_current_path()))`. -/
  | list_current_directory
  | change_directory (p : Str)
  | create_file (p : Str)
  | create_directory (p : Str)
  | remove_path (p : Str)
  | copy_path (a b : Str)
  | move_path (a b : Str)
  | show_file_head (f : Str) (n : Int)
  | show_file_tail (f : Str) (n : Int)
  /-- The loop printing each element of `search_recursive(r, p)`. -/
  | search_recursive (r p : Str)
  | change_permissions (p m : Str)
  /-- Text written to `std::cerr` by `main` itself. -/
  | cerr (text : Str)
deriving DecidableEq, Repr

/-- The two states of the read-eval-print loop. -/
inductive ReplState where
  | Running
  | Terminated
deriving DecidableEq, Repr

open ReplState

/-- The branch `cmd == "ls"` (source lines 267-276). -/
def dispatch_ls (iss : IStream) : List Action :=
  let iss := ws iss
  if iss.ok then
    match getline iss [] with
    | (iss, p) =>
      if iss.ok && !p.isEmpty then
        let p := if p.head? = some ' ' then p.dropWhile (fun c => c == ' ') else p
        [.list_directory p]
      else [.list_current_directory]
  else [.list_current_directory]

/-- One operand `iss >> p` followed by a call, as in the branches of `cd`,
`mkfile`, `mkdir` and `rm`: the call is made when the extraction succeeded. -/
def with_one (iss : IStream) (call : Str → Action) : List Action :=
  match extract_string iss [] with
  | (iss, p) => if iss.ok then [call p] else []

/-- Two operands `iss >> a >> b` followed by a call, as in the branches of
`cp`, `mv` and `chmod`. -/
def with_two (iss : IStream) (call : Str → Str → Action) : List Action :=
  match extract_string iss [] with
  | (iss, a) =>
    match extract_string iss [] with
    | (iss, b) => if iss.ok then [call a b] else []

/-- The operands `iss >> f >> n` of `cathead` and `cattail`. -/
def with_file_count (iss : IStream) (call : Str → Int → Action) : List Action :=
  match extract_string iss [] with
  | (iss, f) =>
    match extract_int iss 0 with
    | (iss, n) => if iss.ok then [call f n] else []

/-- The branch `cmd == "search"` (source lines 301-308), the one branch with
an `else` that reports missing operands. -/
def dispatch_search (iss : IStream) : List Action :=
  match extract_string iss [] with
  | (iss, r) =>
    match extract_string iss [] with
    | (iss, p) =>
      if iss.ok then [.search_recursive r p]
      else [.cerr "search: usage: search <root> <regex>\n".toList]

/-- The body of the loop of `main` for one line that `std::getline` read
(source lines 259-315): the actions taken and the state the loop is left in. -/
def run_line (line : Str) : List Action × ReplState :=
  if line.isEmpty then ([], Running)
  else
    match extract_string ⟨line, false, false⟩ [] with
    | (iss, cmd) =>
      if cmd = "help".toList then ([.show_menu], Running)
      else if cmd = "pwd".toList then ([.print_current_path], Running)
      else if cmd = "ls".toList then (dispatch_ls iss, Running)
      else if cmd = "cd".toList then (with_one iss .change_directory, Running)
      else if cmd = "mkfile".toList then (with_one iss .create_file, Running)
      else if cmd = "mkdir".toList then (with_one iss .create_directory, Running)
      else if cmd = "rm".toList then (with_one iss .remove_path, Running)
      else if cmd = "cp".toList then (with_two iss .copy_path, Running)
      else if cmd = "mv".toList then (with_two iss .move_path, Running)
      else if cmd = "cathead".toList then (with_file_count iss .show_file_head, Running)
      else if cmd = "cattail".toList then (with_file_count iss .show_file_tail, Running)
      else if cmd = "search".toList then (dispatch_search iss, Running)
      else if cmd = "chmod".toList then (with_two iss .change_permissions, Running)
      else if cmd = "exit".toList then ([], Terminated)
      else ([.cerr ("Unknown command: ".toList ++ cmd ++ " (type 'help')\n".toList)], Running)

/-- The loop of `main` (source lines 256-316) over the lines that successive
calls `std::getline(std::cin, line)` deliver; the end of the list is the call
that fails. A line so read holds no line feed. -/
def main_loop : List Str → List Action
  | [] => []
  | line :: rest =>
    match run_line line with
    | (actions, Running) => actions ++ main_loop rest
    | (actions, Terminated) => actions

/-- The claim's "first whitespace-delimited token" of a line. -/
def first_token (line : Str) : Str :=
  (line.dropWhile isspace).takeWhile (fun c => !isspace c)

/-- What follows the first token of a line. -/
def after_token (line : Str) : Str :=
  (line.dropWhile isspace).dropWhile (fun c => !isspace c)

/-- The 14 command words. -/
def command_words : List Str :=
  ["help", "pwd", "ls", "cd", "mkfile", "mkdir", "rm", "cp", "mv", "cathead", "cattail",
    "search", "chmod", "exit"].map String.toList

/-! ## Theorems -/

theorem mem_octal_digits (c : Char) (h : '0' ≤ c ∧ c ≤ '7') : c ∈ octal_digits := by
  obtain ⟨h0, h7⟩ := h
  have h0n : 48 ≤ c.toNat := h0
  have h7n : c.toNat ≤ 55 := h7
  have hc : c = Char.ofNat c.toNat := (Char.ofNat_toNat c).symm
  generalize c.toNat = n at h0n h7n hc
  subst hc
  interval_cases n <;> decide

set_option maxRecDepth 100000 in
theorem roundtrip_on_digits :
    ∀ a ∈ octal_digits, ∀ b ∈ octal_digits, ∀ c ∈ octal_digits,
      decode_mode [a, b, c] = .ok (digits_value 8 [a, b, c]) ∧
        (perms_to_string (digits_value 8 [a, b, c])).length = 9 ∧
        ∀ i < 3, ∀ j < 3, (perms_to_string (digits_value 8 [a, b, c]))[3 * i + j]? =
          some (expected_char ([a, b, c].getD i '0') j) := by
  decide

/-- C1: for every 3-character string of octal digits the mode decoding of
`change_permissions` succeeds, the decoded set is the one handed to
`fs::permissions`, and `perms_to_string` of it is the 9-character string whose
position `3*i+j` holds the letter of capability `j` exactly when bit `4 >> j`
of digit `i` is set, and a dash otherwise. -/
theorem decode_encode_roundtrip (m : Str) (hlen : m.length = 3)
    (hoct : ∀ c ∈ m, '0' ≤ c ∧ c ≤ '7') :
    ∃ p, decode_mode m = .ok p ∧
      (∀ fsp path, (change_permissions fsp path m).applied = some p) ∧
      (perms_to_string p).length = 9 ∧
      ∀ i < 3, ∀ j < 3,
        (perms_to_string p)[3 * i + j]? = some (expected_char (m.getD i '0') j) := by
  match m, hlen with
  | [a, b, c], _ =>
    have ha := mem_octal_digits a (hoct a (by simp))
    have hb := mem_octal_digits b (hoct b (by simp))
    have hc := mem_octal_digits c (hoct c (by simp))
    obtain ⟨hd, hl, hs⟩ := roundtrip_on_digits a ha b hb c hc
    refine ⟨digits_value 8 [a, b, c], hd, ?_, hl, hs⟩
    intro fsp path
    simp only [change_permissions, hd]
    split <;> rfl

/-- The round trip at the mode `755`. -/
theorem decode_encode_roundtrip_witness :
    ∃ p, decode_mode "755".toList = .ok p ∧
      (∀ fsp path, (change_permissions fsp path "755".toList).applied = some p) ∧
      (perms_to_string p).length = 9 ∧
      ∀ i < 3, ∀ j < 3,
        (perms_to_string p)[3 * i + j]? = some (expected_char ("755".toList.getD i '0') j) :=
  decode_encode_roundtrip "755".toList (by decide) (by decide)

/-! ### head -/

theorem head_loop_eq (lines : Int) (file : List Str) (count : Int) :
    head_loop lines file count = file.take (lines - count).toNat := by
  induction file generalizing count with
  | nil => simp [head_loop]
  | cons l file ih =>
    unfold head_loop
    split
    · rename_i h
      rw [ih]
      have : (lines - count).toNat = (lines - (count + 1)).toNat + 1 := by omega
      rw [this, List.take_succ_cons]
    · rename_i h
      have : (lines - count).toNat = 0 := by omega
      rw [this, List.take_zero]

/-! ### tail -/

theorem size_to_int_of_lt (k : Nat) (h : k < 2147483648) : size_to_int k = k := by
  unfold size_to_int
  have : k % 4294967296 = k := Nat.mod_eq_of_lt (by omega)
  rw [this, if_pos h]

theorem size_to_int_le_max (k : Nat) : size_to_int k ≤ INT_MAX := by
  unfold size_to_int INT_MAX
  split <;> omega

/-- With `lines = INT_MAX` the test `(int)buffer.size() > lines` never holds. -/
theorem tail_step_int_max (buffer : List Str) (line : Str) :
    tail_step INT_MAX buffer line = buffer ++ [line] := by
  unfold tail_step
  have := size_to_int_le_max (buffer ++ [line]).length
  simp only [gt_iff_lt]
  rw [if_neg (by omega)]

theorem tail_loop_int_max (file buffer : List Str) :
    tail_loop INT_MAX file buffer = buffer ++ file := by
  induction file generalizing buffer with
  | nil => simp [tail_loop]
  | cons l file ih => simp [tail_loop, tail_step_int_max, ih]

/-- Below `INT_MAX`, one iteration turns the last `n` lines of what was read
into the last `n` lines of what has been read now. -/
theorem tail_step_window (n : Nat) (hn : (n : Int) < INT_MAX) (seen : List Str) (line : Str) :
    tail_step n (last_n n seen) line = last_n n (seen ++ [line]) := by
  have hn2 : n < 2147483647 := by unfold INT_MAX at hn; omega
  have hlen : (last_n n seen).length = min seen.length n := by
    unfold last_n; rw [List.length_drop]; omega
  have hsz : size_to_int (last_n n seen ++ [line]).length = ((min seen.length n + 1 : Nat) : Int) := by
    rw [size_to_int_of_lt _ (by rw [List.length_append, hlen]; simp; omega)]
    rw [List.length_append, hlen]; simp
  simp only [tail_step, hsz, gt_iff_lt]
  unfold last_n
  rw [List.length_append, List.length_singleton]
  rcases lt_or_le seen.length n with h | h
  · rw [if_neg (by omega)]
    have h0 : seen.length - n = 0 := by omega
    have h1 : seen.length + 1 - n = 0 := by omega
    rw [h0, h1, List.drop_zero, List.drop_zero]
  · rw [if_pos (by omega), ← List.drop_one, List.drop_append_eq_append_drop,
      List.drop_append_eq_append_drop, List.drop_drop, List.length_drop]
    have h1 : seen.length - n + 1 = seen.length + 1 - n := by omega
    have h2 : 1 - (seen.length - (seen.length - n)) = seen.length + 1 - n - seen.length := by
      omega
    rw [h1, h2]

/-- Below `INT_MAX` the buffer holds the last `n` lines of what has been read. -/
theorem tail_loop_window (n : Nat) (hn : (n : Int) < INT_MAX) (file seen : List Str) :
    tail_loop n file (last_n n seen) = last_n n (seen ++ file) := by
  induction file generalizing seen with
  | nil => simp [tail_loop]
  | cons l file ih =>
    unfold tail_loop
    rw [tail_step_window n hn, ih]
    simp

/-- The loop run on a file read in two parts. -/
theorem tail_loop_append (lines : Int) (xs ys buffer : List Str) :
    tail_loop lines (xs ++ ys) buffer = tail_loop lines ys (tail_loop lines xs buffer) := by
  induction xs generalizing buffer with
  | nil => rfl
  | cons x xs ih => simp [tail_loop, ih]

theorem last_n_length (n : Nat) (l : List Str) : (last_n n l).length = min n l.length := by
  unfold last_n; rw [List.length_drop]; omega

/-- The positive part of the tail contract: for `0 ≤ n < INT_MAX` the output
is the last `min n |L|` lines of the file, and after each line is read (after
any prefix `L.take k`) the buffer holds the last `n` lines read, at most `n`. -/
theorem show_file_tail_below_int_max (L : List Str) (path : Str) (n : Nat)
    (hn : (n : Int) < INT_MAX) :
    show_file_tail (some L) path n = ⟨true, emit_lines (L.drop (L.length - min n L.length)), []⟩ ∧
      ∀ k ≤ L.length, tail_loop n (L.take k) [] = (L.take k).drop (k - n) ∧
        (tail_loop n (L.take k) []).length ≤ n ∧
        tail_loop n L [] = tail_loop n (L.drop k) (tail_loop n (L.take k) []) := by
  have h0 : ([] : List Str) = last_n n [] := by simp [last_n]
  have hw : ∀ file, tail_loop n file [] = last_n n file := by
    intro file
    have := tail_loop_window n hn file []
    rw [← h0] at this
    simpa using this
  refine ⟨?_, ?_⟩
  · simp only [show_file_tail, hw, last_n]
    congr 3
    omega
  · intro k hk
    refine ⟨?_, ?_, ?_⟩
    · rw [hw, last_n, List.length_take, min_eq_left hk]
    · rw [hw, last_n_length]; omega
    · rw [← tail_loop_append, List.take_append_drop]

theorem search_loop_eq (re : Str → Option Bool) (advs : List Advance) (results : List Str) :
    search_loop re advs results =
      (results ++ ((visited advs).filter (fun e => re e.2 = some true)).map (·.1),
        first_error advs) := by
  induction advs generalizing results with
  | nil => simp [search_loop, visited, first_error]
  | cons a rest ih =>
    cases a with
    | error m => simp [search_loop, visited, first_error]
    | entry p f =>
      simp only [search_loop, visited, first_error, ih]
      by_cases h : re f = some true <;> simp [List.filter_cons, h]

theorem dropWhile_head_false (p : Char → Bool) (l : Str) (c : Char) (r : Str)
    (h : l.dropWhile p = c :: r) : p c = false := by
  induction l with
  | nil => simp at h
  | cons a l ih =>
    rw [List.dropWhile_cons] at h
    split at h
    · exact ih h
    · rename_i hp
      injection h with h1 h2
      subst h1
      simpa using hp

theorem extract_string_fresh (line : Str) :
    extract_string ⟨line, false, false⟩ [] =
      if (line.dropWhile isspace).isEmpty then (⟨[], true, true⟩, [])
      else (⟨after_token line, (after_token line).isEmpty, false⟩, first_token line) := by
  unfold extract_string sentry first_token after_token
  simp only [IStream.good, Bool.not_false, Bool.and_self, if_true, Bool.false_eq_true, if_false]
  cases h : line.dropWhile isspace with
  | nil => simp
  | cons c r =>
    have hc := dropWhile_head_false isspace line c r h
    simp [List.takeWhile_cons, hc]

theorem first_token_of_blank (line : Str) (h : ∀ c ∈ line, isspace c = true) :
    line.dropWhile isspace = [] := by
  rw [List.dropWhile_eq_nil_iff]
  exact h

theorem run_line_unknown (line : Str) (hne : line ≠ []) (h : first_token line ∉ command_words) :
    run_line line =
      ([.cerr ("Unknown command: ".toList ++ first_token line ++ " (type 'help')\n".toList)],
        Running) := by
  have hcmd : (extract_string ⟨line, false, false⟩ []).2 = first_token line := by
    rw [extract_string_fresh]
    split
    · rename_i h0
      simp only [first_token]
      rw [List.isEmpty_iff] at h0
      rw [h0]; rfl
    · rfl
  simp only [command_words, List.map, List.mem_cons, List.mem_singleton, not_or,
    List.not_mem_nil, or_false] at h
  obtain ⟨h1, h2, h3, h4, h5, h6, h7, h8, h9, h10, h11, h12, h13, h14⟩ := h
  unfold run_line
  rw [if_neg (by simpa using hne)]
  generalize hx : extract_string ⟨line, false, false⟩ [] = x at hcmd
  obtain ⟨iss, cmd⟩ := x
  simp only at hcmd
  subst hcmd
  simp only [h1, h2, h3, h4, h5, h6, h7, h8, h9, h10, h11, h12, h13, h14, if_false]

theorem rest_suffix (line : Str) : (after_token line).dropWhile isspace <:+ line :=
  ((List.dropWhile_suffix _).trans (List.dropWhile_suffix _)).trans (List.dropWhile_suffix _)

theorem takeWhile_all (p : Char → Bool) (l : Str) (h : ∀ c ∈ l, p c = true) :
    l.takeWhile p = l ∧ l.dropWhile p = [] := by
  constructor
  · rw [List.takeWhile_eq_self_iff]; exact h
  · rw [List.dropWhile_eq_nil_iff]; exact h

theorem ws_good (A : Str) :
    ws ⟨A, false, false⟩ = ⟨A.dropWhile isspace, (A.dropWhile isspace).isEmpty, false⟩ := rfl

theorem ws_at_end : ws ⟨[], true, false⟩ = ⟨[], true, true⟩ := rfl

theorem getline_at_end (p : Str) : getline ⟨[], true, false⟩ p = (⟨[], true, true⟩, p) := rfl

theorem getline_whole (R : Str) (hne : R ≠ []) (hnl : '\n' ∉ R) :
    getline ⟨R, false, false⟩ [] = (⟨[], true, false⟩, R) := by
  have hall : ∀ x ∈ R, (fun y => y != '\n') x = true := by
    intro x hx
    have : x ≠ '\n' := fun e => hnl (e ▸ hx)
    simpa using this
  obtain ⟨ht, hd⟩ := takeWhile_all _ _ hall
  have he : R.isEmpty = false := by
    cases R with
    | nil => exact absurd rfl hne
    | cons _ _ => rfl
  show (match List.dropWhile (fun c => c != '\n') R with
    | [] => ((⟨[], true, (List.takeWhile (fun c => c != '\n') R).isEmpty⟩ : IStream),
        List.takeWhile (fun c => c != '\n') R)
    | _ :: rest => (⟨rest, false, false⟩, List.takeWhile (fun c => c != '\n') R)) = _
  rw [hd, ht, he]

theorem dispatch_ls_eq (A : Str) (hnl : '\n' ∉ A) :
    dispatch_ls ⟨A, A.isEmpty, false⟩ =
      if A.dropWhile isspace = [] then [.list_current_directory]
      else [.list_directory (A.dropWhile isspace)] := by
  cases hA : A with
  | nil => rfl
  | cons a A1 =>
    rw [← hA]
    have hAe : A.isEmpty = false := by rw [hA]; rfl
    unfold dispatch_ls
    rw [hAe, ws_good]
    cases hR : A.dropWhile isspace with
    | nil => rfl
    | cons c r =>
      have hc := dropWhile_head_false isspace A c r hR
      have hnl2 : '\n' ∉ c :: r := by
        intro hx
        rw [← hR] at hx
        exact hnl ((List.dropWhile_suffix isspace).subset hx)
      have hsp : c ≠ ' ' := by
        intro e
        rw [e] at hc
        exact absurd hc (by decide)
      have he : (c :: r).isEmpty = false := rfl
      simp only [he, getline_whole (c :: r) (by simp) hnl2]
      simp [IStream.ok, hsp]

theorem run_line_ls (line : Str) (hcmd : first_token line = "ls".toList) (hnl : '\n' ∉ line) :
    run_line line =
      (if (after_token line).dropWhile isspace = [] then [.list_current_directory]
        else [.list_directory ((after_token line).dropWhile isspace)], Running) := by
  have hd : (line.dropWhile isspace).isEmpty = false := by
    cases h : line.dropWhile isspace with
    | nil => simp [first_token, h] at hcmd
    | cons _ _ => rfl
  have hne : line.isEmpty = false := by
    cases line with
    | nil => simp at hd
    | cons _ _ => rfl
  have hnl2 : '\n' ∉ after_token line := fun hx =>
    hnl (((List.dropWhile_suffix _).trans (List.dropWhile_suffix _)).subset hx)
  unfold run_line
  rw [hne, extract_string_fresh, hd]
  simp only [Bool.false_eq_true, if_false, hcmd]
  rw [if_neg (by decide), if_neg (by decide), if_pos trivial, dispatch_ls_eq _ hnl2]

/-! ### Permission codec: rejected and accepted modes -/

/-- A mode whose length is not 3 is rejected before it is parsed. -/
theorem decode_mode_wrong_length (mode : Str) (h : mode.length ≠ 3) :
    decode_mode mode = .error "chmod: mode should be 3 digits like 755\n".toList := by
  unfold decode_mode
  rw [if_pos h]

/-- The modes `75` and `abc` are rejected, and nothing is applied. -/
theorem modes_75_abc_rejected :
    change_permissions (fun _ _ => none) "f".toList "75".toList =
        ⟨false, "chmod: mode should be 3 digits like 755\n".toList, none⟩ ∧
      change_permissions (fun _ _ => none) "f".toList "abc".toList =
        ⟨false, "chmod: invalid mode\n".toList, none⟩ := by
  decide

/-- C2, at the failing input: the mode `778` holds a digit above 7, yet the
parse stops in front of the `8`, converts `77`, and `change_permissions`
applies the permission set `---rwxrwx` and returns true. The modes `7a5`,
`+75` and `-75` are accepted in the same way. -/
theorem mode_778_is_decoded :
    decode_mode "778".toList = .ok 0o77 ∧
      change_permissions (fun _ _ => none) "f".toList "778".toList = ⟨true, [], some 0o77⟩ ∧
      perms_to_string 0o77 = "---rwxrwx".toList ∧
      decode_mode "7a5".toList = .ok 0o7 ∧
      decode_mode "+75".toList = .ok 0o75 ∧
      decode_mode "-75".toList = .ok 0o703 := by
  decide

/-! ### File preview -/

/-- C3: for an openable file with line sequence `L` and any `n`,
`show_file_head` returns true and writes exactly the first
`min (max n 0) |L|` lines of `L`, in order: nothing when `n ≤ 0`, all of `L`
when `n ≥ |L|`. -/
theorem show_file_head_emits_first_lines (L : List Str) (path : Str) (n : Int) :
    show_file_head (some L) path n =
        ⟨true, emit_lines (L.take (min (max n 0) L.length).toNat), []⟩ ∧
      (n ≤ 0 → show_file_head (some L) path n = ⟨true, [], []⟩) ∧
      ((L.length : Int) ≤ n → show_file_head (some L) path n = ⟨true, emit_lines L, []⟩) := by
  have key : ∀ k : Nat, k = (n - 0).toNat →
      show_file_head (some L) path n = ⟨true, emit_lines (L.take k), []⟩ := by
    intro k hk
    simp only [show_file_head, head_loop_eq, hk]
  refine ⟨?_, ?_, ?_⟩
  · rcases le_or_lt (n - 0).toNat L.length with h | h
    · exact key _ (by omega)
    · rw [key _ rfl, List.take_of_length_le (le_of_lt h), List.take_of_length_le (by omega)]
  · intro hn
    rw [key 0 (by omega)]
    rfl
  · intro hn
    rw [key _ rfl, List.take_of_length_le (by omega)]

/-- The head of a 5-line file at `n = 3`. -/
theorem show_file_head_emits_first_lines_witness :
    show_file_head (some (["a", "b", "c", "d", "e"].map String.toList)) "f".toList 3 =
      ⟨true, "a\nb\nc\n".toList, []⟩ :=
  (show_file_head_emits_first_lines _ _ 3).1

/-- C4, at the failing input: with `n = INT_MAX` the test
`(int)buffer.size() > lines` can never hold, so no line is ever dropped; on a
file of `2^31` lines the buffer ends with `2^31` lines, more than `n`, and all
of them are written instead of the last `n`. -/
theorem show_file_tail_int_max_keeps_every_line :
    tail_loop 2147483647 (List.replicate 2147483648 []) [] = List.replicate 2147483648 [] ∧
      ¬ ((tail_loop 2147483647 (List.replicate 2147483648 []) []).length : Int) ≤ 2147483647 ∧
      show_file_tail (some (List.replicate 2147483648 [])) "f".toList 2147483647 =
        ⟨true, emit_lines (List.replicate 2147483648 []), []⟩ := by
  have h : tail_loop 2147483647 (List.replicate 2147483648 []) [] =
      List.replicate 2147483648 [] := by
    have := tail_loop_int_max (List.replicate 2147483648 []) []
    rw [List.nil_append] at this
    exact this
  refine ⟨h, ?_, ?_⟩
  · rw [h, List.length_replicate]
    omega
  · show PreviewOutcome.mk true
      (emit_lines (tail_loop 2147483647 (List.replicate 2147483648 []) [])) [] = _
    rw [h]

/-! ### Recursive search -/

theorem visited_eq_all_entries (advs : List Advance) (h : first_error advs = none) :
    visited advs = all_entries advs := by
  induction advs with
  | nil => rfl
  | cons a rest ih =>
    cases a with
    | error m => simp [first_error] at h
    | entry p f =>
      simp only [first_error] at h
      simp only [visited, all_entries, ih h]

/-- C5 fails as stated: under a root whose first child `locked` cannot be read
and whose second child `ok` is a readable sibling holding `a.txt`, the entry
`r/ok/a.txt` exists and matches, yet the search returns nothing and reports
the error once. -/
theorem search_misses_sibling_after_error :
    (("r/ok/a.txt".toList, "a.txt".toList) ∈
        all_entries (open_tree tree_locked_first "r".toList)) ∧
      re_a_txt "a.txt".toList = some true ∧
      search_recursive (fun _ => .ok re_a_txt) (open_tree tree_locked_first) "r".toList
        "^a\\.txt$".toList = ⟨[], "search: Permission denied\n".toList⟩ ∧
      "r/ok/a.txt".toList ∉
        (search_recursive (fun _ => .ok re_a_txt) (open_tree tree_locked_first) "r".toList
          "^a\\.txt$".toList).results := by
  decide

/-- C5 as amended: for a valid pattern the search stops at the first advance
that reports an error. The result is exactly the paths of the matching
entries delivered before that advance, in traversal order, and the error is
written once; when no advance fails, every matching entry is in the result. -/
theorem search_recursive_stops_at_first_error
    (compile : Str → Except Str (Str → Option Bool)) (open_root : Str → List Advance)
    (root pattern : Str) (re : Str → Option Bool) (hre : compile pattern = .ok re) :
    (search_recursive compile open_root root pattern).results =
        ((visited (open_root root)).filter (fun e => re e.2 = some true)).map (·.1) ∧
      (∀ e ∈ visited (open_root root), re e.2 = some true →
        e.1 ∈ (search_recursive compile open_root root pattern).results) ∧
      (∀ message, first_error (open_root root) = some message →
        (search_recursive compile open_root root pattern).cerr =
          "search: ".toList ++ message ++ "\n".toList) ∧
      (first_error (open_root root) = none →
        (search_recursive compile open_root root pattern).cerr = [] ∧
        ∀ e ∈ all_entries (open_root root), re e.2 = some true →
          e.1 ∈ (search_recursive compile open_root root pattern).results) := by
  have hres : (search_recursive compile open_root root pattern).results =
      ((visited (open_root root)).filter (fun e => re e.2 = some true)).map (·.1) := by
    simp only [search_recursive, hre, search_loop_eq, List.nil_append]
    cases first_error (open_root root) <;> rfl
  have hmem : ∀ e ∈ visited (open_root root), re e.2 = some true →
      e.1 ∈ (search_recursive compile open_root root pattern).results := by
    intro e he hm
    rw [hres]
    exact List.mem_map.mpr ⟨e, List.mem_filter.mpr ⟨he, by simpa using hm⟩, rfl⟩
  refine ⟨hres, hmem, ?_, ?_⟩
  · intro message hm
    simp only [search_recursive, hre, search_loop_eq, hm]
  · intro hn
    refine ⟨?_, ?_⟩
    · simp only [search_recursive, hre, search_loop_eq, hn]
    · intro e he hm
      rw [← visited_eq_all_entries _ hn] at he
      exact hmem e he hm

/-- The amended search on a root whose readable directory `ok` comes before
the unreadable `locked`: `a.txt` is found and the error is reported. -/
theorem search_recursive_stops_at_first_error_witness :
    (search_recursive (fun _ => .ok re_a_txt)
        (open_tree [.dir "ok".toList true [.file "a.txt".toList], .dir "locked".toList false []])
        "r".toList "^a\\.txt$".toList).results = ["r/ok/a.txt".toList] :=
  (search_recursive_stops_at_first_error (fun _ => .ok re_a_txt)
    (open_tree [.dir "ok".toList true [.file "a.txt".toList], .dir "locked".toList false []])
    "r".toList "^a\\.txt$".toList re_a_txt rfl).1.trans (by decide)

/-! ### Directory listing -/

theorem perm_char_mem (p flag : Nat) (yes : Char) (h : yes ∈ "rwx-".toList) :
    perm_char p flag yes ∈ "rwx-".toList := by
  unfold perm_char
  split
  · exact h
  · decide

/-- The string is always 9 characters over `r`, `w`, `x`, `-`. -/
theorem perms_to_string_alphabet (p : Nat) :
    (perms_to_string p).length = 9 ∧ ∀ c ∈ perms_to_string p, c ∈ "rwx-".toList := by
  have hs : perms_to_string p =
      [perm_char p owner_read 'r', perm_char p owner_write 'w', perm_char p owner_exec 'x',
        perm_char p group_read 'r', perm_char p group_write 'w', perm_char p group_exec 'x',
        perm_char p others_read 'r', perm_char p others_write 'w',
        perm_char p others_exec 'x'] := rfl
  rw [hs]
  refine ⟨rfl, ?_⟩
  intro c hc
  simp only [List.mem_cons, List.mem_singleton, List.not_mem_nil, or_false] at hc
  rcases hc with h | h | h | h | h | h | h | h | h <;> rw [h] <;>
    exact perm_char_mem _ _ _ (by decide)

theorem push_back_fold (f : directory_entry → FileInfo) (entries : List directory_entry)
    (out : List FileInfo) :
    entries.foldl (fun out entry => out ++ [f entry]) out = out ++ entries.map f := by
  induction entries generalizing out with
  | nil => simp
  | cons e es ih => simp [ih]

/-- C8: for a directory that can be opened, `list_directory` returns one
descriptor per child, in iteration order, each computed from its own child.
When the link status resolves, `is_dir` tells whether it is a directory, `size`
is the byte length for a regular file whose length can be read and 0
otherwise, and `perms` is `perms_to_string` of the status permissions, 9
characters over `r`, `w`, `x`, `-`. When it does not resolve, the child is
listed with `is_dir = false`, `size = 0` and nine question marks. -/
theorem list_directory_describes_each_child
    (open_dir : Str → Except Str (List directory_entry)) (path : Str)
    (entries : List directory_entry) (hopen : open_dir path = .ok entries) :
    (list_directory open_dir path).cerr = [] ∧
      (list_directory open_dir path).out.length = entries.length ∧
      ∀ (i : Nat) (hi : i < entries.length), ∃ fi,
        (list_directory open_dir path).out[i]? = some fi ∧
        fi.name = entries[i].filename ∧ fi.path = entries[i].path ∧
        (∀ st, entries[i].symlink_status = .ok st →
          fi.is_dir = decide (st.type = file_type.directory) ∧
          fi.size = (if st.type = file_type.regular then entries[i].file_size.toOption.getD 0
            else 0) ∧
          fi.perms = perms_to_string st.permissions ∧
          fi.perms.length = 9 ∧ ∀ c ∈ fi.perms, c ∈ "rwx-".toList) ∧
        (∀ e, entries[i].symlink_status = .error e →
          fi.is_dir = false ∧ fi.size = 0 ∧ fi.perms = "?????????".toList) := by
  have hout : (list_directory open_dir path).out = entries.map file_info := by
    simp only [list_directory, hopen, push_back_fold, List.nil_append]
  have herr : (list_directory open_dir path).cerr = [] := by
    simp only [list_directory, hopen]
  refine ⟨herr, by rw [hout, List.length_map], ?_⟩
  intro i hi
  refine ⟨file_info entries[i], ?_, ?_, ?_, ?_, ?_⟩
  · rw [hout, List.getElem?_map, List.getElem?_eq_getElem hi]
    rfl
  · unfold file_info
    split <;> rfl
  · unfold file_info
    split <;> rfl
  · intro st hst
    have hfi : file_info entries[i] =
        ⟨entries[i].filename, entries[i].path, is_directory st,
          if is_regular_file st then
            match entries[i].file_size with
            | .ok n => n
            | .error _ => 0
          else 0,
          perms_to_string st.permissions⟩ := by
      unfold file_info
      rw [hst]
    rw [hfi]
    refine ⟨?_, ?_, rfl, (perms_to_string_alphabet _).1, (perms_to_string_alphabet _).2⟩
    · show (st.type == file_type.directory) = _
      generalize st.type = t
      cases t <;> rfl
    · simp only [is_regular_file, beq_iff_eq]
      split
      · cases entries[i].file_size <;> rfl
      · rfl
  · intro e he
    have hfi : file_info entries[i] =
        ⟨entries[i].filename, entries[i].path, false, 0, "?????????".toList⟩ := by
      unfold file_info
      rw [he]
    rw [hfi]
    exact ⟨rfl, rfl, rfl⟩

/-- The listing of `example_dir` has two descriptors. -/
theorem list_directory_describes_each_child_witness :
    (list_directory (fun _ => .ok example_dir) "d".toList).cerr = [] ∧
      (list_directory (fun _ => .ok example_dir) "d".toList).out.length = 2 ∧
      (list_directory (fun _ => .ok example_dir) "d".toList).out =
        [⟨"a.txt".toList, "d/a.txt".toList, false, 10, "rw-r--r--".toList⟩,
          ⟨"sub".toList, "d/sub".toList, true, 0, "rwxr-xr-x".toList⟩] :=
  ⟨(list_directory_describes_each_child (fun _ => .ok example_dir) "d".toList example_dir
      rfl).1,
    (list_directory_describes_each_child (fun _ => .ok example_dir) "d".toList example_dir
      rfl).2.1, by decide⟩

/-! ### Dispatcher -/

/-- C6, at the failing inputs: a command of `cd`, `mkfile`, `mkdir`, `rm`,
`cp`, `mv`, `cathead`, `cattail`, `chmod` with an operand missing, or a line
count that is not a number, makes `main` do nothing at all: the operation is
not called and the loop goes on, but nothing is written to `std::cerr`. Only
`search` reports its usage. -/
theorem missing_operands_are_silent :
    run_line "cd".toList = ([], Running) ∧
      run_line "mkfile".toList = ([], Running) ∧
      run_line "mkdir ".toList = ([], Running) ∧
      run_line "rm".toList = ([], Running) ∧
      run_line "cp a".toList = ([], Running) ∧
      run_line "mv a".toList = ([], Running) ∧
      run_line "cathead f".toList = ([], Running) ∧
      run_line "cathead f x".toList = ([], Running) ∧
      run_line "cattail f".toList = ([], Running) ∧
      run_line "chmod f".toList = ([], Running) ∧
      run_line "search r".toList =
        ([.cerr "search: usage: search <root> <regex>\n".toList], Running) := by
  decide

/-- C7: for a non-empty line whose first token `t` is none of the 14 command
words, `main` calls no operation, writes to `std::cerr` one message, which
contains `t`, and stays Running: the loop goes on with the next line. -/
theorem unknown_command_reported (line : Str) (rest : List Str) (hne : line ≠ [])
    (h : first_token line ∉ command_words) :
    run_line line =
        ([.cerr ("Unknown command: ".toList ++ first_token line ++ " (type 'help')\n".toList)],
          Running) ∧
      first_token line <:+:
        "Unknown command: ".toList ++ first_token line ++ " (type 'help')\n".toList ∧
      main_loop (line :: rest) =
        .cerr ("Unknown command: ".toList ++ first_token line ++ " (type 'help')\n".toList) ::
          main_loop rest := by
  refine ⟨run_line_unknown line hne h, ?_, ?_⟩
  · exact ⟨"Unknown command: ".toList, " (type 'help')\n".toList, rfl⟩
  · simp only [main_loop, run_line_unknown line hne h, List.singleton_append]

/-- The line `frobnicate`, followed by `pwd`. -/
theorem unknown_command_reported_witness :
    run_line "frobnicate".toList =
        ([.cerr "Unknown command: frobnicate (type 'help')\n".toList], Running) ∧
      main_loop ["frobnicate".toList, "pwd".toList] =
        [.cerr "Unknown command: frobnicate (type 'help')\n".toList, .print_current_path] :=
  ⟨(unknown_command_reported "frobnicate".toList ["pwd".toList] (by decide) (by decide)).1,
    (unknown_command_reported "frobnicate".toList ["pwd".toList] (by decide)
      (by decide)).2.2.trans (by decide)⟩

/-- C9: for a line read by `std::getline` whose command word is `ls`, the path
listed is what remains of the line from the first character after the command
word that is not white space, taken whole up to the end of the line (a suffix
of the line: embedded and trailing spaces stay); when nothing but white space
follows the command word, the current directory is listed. -/
theorem ls_lists_rest_of_line (line : Str) (hcmd : first_token line = "ls".toList)
    (hnl : '\n' ∉ line) :
    run_line line =
        (if (after_token line).dropWhile isspace = [] then [.list_current_directory]
          else [.list_directory ((after_token line).dropWhile isspace)], Running) ∧
      (after_token line).dropWhile isspace <:+ line :=
  ⟨run_line_ls line hcmd hnl, rest_suffix line⟩

/-- The line `ls`, two spaces, `my dir`, one space. -/
theorem ls_lists_rest_of_line_witness :
    run_line "ls  my dir ".toList = ([.list_directory "my dir ".toList], Running) :=
  (ls_lists_rest_of_line "ls  my dir ".toList (by decide) (by decide)).1.trans (by decide)

/-- C10: a non-empty line of white space only is not skipped. The command
word extracted is empty, no branch matches, and `main` writes
`Unknown command:  (type 'help')` to `std::cerr`, calls nothing and stays
Running; only the line of length 0 is passed over in silence. -/
theorem blank_line_is_unknown_command (line : Str) (rest : List Str) (hne : line ≠ [])
    (hblank : ∀ c ∈ line, isspace c = true) :
    first_token line = [] ∧
      run_line line = ([.cerr "Unknown command:  (type 'help')\n".toList], Running) ∧
      main_loop (line :: rest) =
        .cerr "Unknown command:  (type 'help')\n".toList :: main_loop rest ∧
      run_line [] = ([], Running) ∧ main_loop ([] :: rest) = main_loop rest := by
  have ht : first_token line = [] := by
    unfold first_token
    rw [first_token_of_blank line hblank]
    rfl
  have hrun : run_line line =
      ([.cerr "Unknown command:  (type 'help')\n".toList], Running) := by
    rw [run_line_unknown line hne (by rw [ht]; decide), ht]
    rfl
  refine ⟨ht, hrun, ?_, rfl, rfl⟩
  simp only [main_loop, hrun, List.singleton_append]

/-- The line of three spaces. -/
theorem blank_line_is_unknown_command_witness :
    run_line "   ".toList = ([.cerr "Unknown command:  (type 'help')\n".toList], Running) :=
  (blank_line_is_unknown_command "   ".toList [] (by decide) (by decide)).2.1

end FileExplorer
